import Mathlib

/-!
Verification development for the FreeBloom spatio-temporal diffusion pipeline
(src/freebloom/pipelines/pipeline_spatio_temporal.py).

Shallow embedding conventions:
* Scalars are rationals.  A latent tensor of shape [batch, channel, frame,
  height, width] is modelled as a list over the batch axis of lists over the
  frame axis of flattened per-frame value vectors (the channel and spatial
  axes are flattened into one list, which is faithful for the purely
  element-wise arithmetic the pipeline performs on them).
* The external collaborators (denoising network, scheduler stepping function,
  consistency controller, text encoder outputs, random draws) are opaque
  functions taken as section parameters, mirroring the spec treating them as
  interface-level collaborators.
* Fallible tensor operations (the einops repeat in the mask branch, slice
  assignment, latent shape validation) return Option / Except values.
-/

namespace FreeBloom

/-- Flattened per-frame value vector (channel and spatial axes merged). -/
abbrev Pix := List ℚ

/-- One batch element: a list of frames. -/
abbrev Sample := List Pix

/-- A latent tensor: batch axis over samples. -/
abbrev Tensor := List Sample

/-- One per-frame conditioning embedding (flattened). -/
abbrev Emb := List ℚ

/-- A batch of conditioning embeddings, index-aligned with the frame axis. -/
abbrev EmbT := List Emb

/-- Element-wise addition of two flattened value vectors. -/
def pixAdd (a b : Pix) : Pix := List.zipWith (fun x y => x + y) a b

/-- Scalar multiplication of a flattened value vector. -/
def pixSmul (c : ℚ) (a : Pix) : Pix := a.map (fun x => c * x)

/-- Element-wise (Hadamard) product of two flattened value vectors. -/
def pixMul (a b : Pix) : Pix := List.zipWith (fun x y => x * y) a b

/-- Element-wise classifier-free-guidance combination on one value vector:
uncond + scale * (cond - uncond), mirroring line 435 of the source. -/
def pixCombine (g : ℚ) (u c : Pix) : Pix :=
  List.zipWith (fun a b => a + g * (b - a)) u c

/-- Guidance combination lifted to one batch element. -/
def sampleCombine (g : ℚ) (u c : Sample) : Sample :=
  List.zipWith (pixCombine g) u c

/-- Guidance combination lifted to a full tensor. -/
def tensorCombine (g : ℚ) (u c : Tensor) : Tensor :=
  List.zipWith (sampleCombine g) u c

/-- Scalar multiplication of a full tensor. -/
def tensorSmul (c : ℚ) (t : Tensor) : Tensor :=
  t.map (fun s => s.map (pixSmul c))

/-- Model of torch.Tensor.chunk(2) along the batch axis: the first chunk
holds the first ceil(n/2) batch entries, the second chunk the rest. -/
def tensorChunk2 (t : Tensor) : Tensor × Tensor :=
  (t.take ((t.length + 1) / 2), t.drop ((t.length + 1) / 2))

section SamplerStep

/- Opaque external collaborators (spec section 6). -/
variable (unet : Tensor → ℤ → EmbT → Tensor)
variable (scaleModelInput : Tensor → ℤ → Tensor)
variable (schedStep : Tensor → ℤ → Tensor → Tensor)
variable (ctrlStep : Tensor → Option (List ℕ) → Tensor)

/-- Line 388: classifier-free guidance is enabled exactly when the guidance
scale is strictly greater than 1. -/
def doClassifierFreeGuidance (guidanceScale : ℚ) : Prop := 1 < guidanceScale

instance (g : ℚ) : Decidable (doClassifierFreeGuidance g) := by
  unfold doClassifierFreeGuidance; infer_instance

/-- Line 425: duplicate the latent batch along the batch axis when guidance
is enabled, otherwise pass the latents unmodified. -/
def latentModelInput (g : ℚ) (latents : Tensor) : Tensor :=
  if doClassifierFreeGuidance g then latents ++ latents else latents

/-- Lines 424-435: scale the (possibly duplicated) model input, run the
denoising network, and, when guidance is enabled, split the estimate into an
unconditional half and a conditional half and combine them. -/
def noisePredFinal (g : ℚ) (emb : EmbT) (t : ℤ) (latents : Tensor) : Tensor :=
  let inp := scaleModelInput (latentModelInput g latents) t
  let noisePred := unet inp t emb
  if doClassifierFreeGuidance g then
    let chunks := tensorChunk2 noisePred
    tensorCombine g chunks.1 chunks.2
  else noisePred

/-- Line 437: advance the latents through the scheduler stepping function,
consuming the guidance-combined estimate. -/
def latentsAfterScheduler (g : ℚ) (emb : EmbT) (t : ℤ) (latents : Tensor) :
    Tensor :=
  schedStep (noisePredFinal unet scaleModelInput g emb t latents) t latents

/-- Lines 198-246 and 391-393: the embeddings handed to the denoising network
are the concatenation of the unconditional and conditional embeddings when
guidance is enabled, and the conditional embeddings alone otherwise. -/
def textEmbeddingsUsed (g : ℚ) (uncond cond : EmbT) : EmbT :=
  if doClassifierFreeGuidance g then uncond ++ cond else cond

/-- Noise estimate consumed by the scheduler step in a run of the sampler,
with the embedding selection folded in. -/
def pipelineNoiseEstimate (g : ℚ) (uncond cond : EmbT) (t : ℤ)
    (latents : Tensor) : Tensor :=
  noisePredFinal unet scaleModelInput g (textEmbeddingsUsed g uncond cond) t
    latents

/-- Conditional-only noise estimate: the network evaluated on the
unduplicated scaled latents with the conditional embeddings alone. -/
def condOnlyEstimate (cond : EmbT) (t : ℤ) (latents : Tensor) : Tensor :=
  unet (scaleModelInput latents t) t cond

end SamplerStep

/-- Lines 287-293 model: the callback_steps argument may be a Python int,
None, or a value of any other type. -/
inductive CallbackStepsArg
  | int (n : ℤ)
  | noneV
  | otherV
deriving DecidableEq

/-- Line 421: number of scheduler warm-up steps, an integer that may be
negative when the schedule is shorter than steps times order. -/
def numWarmupSteps (lenTimesteps numInferenceSteps order : ℕ) : ℤ :=
  (lenTimesteps : ℤ) - (numInferenceSteps : ℤ) * (order : ℤ)

/-- Lines 446-449: in a run with a user-supplied callback, the callback is
invoked at step index i exactly when the progress condition holds (final
step, or past warm-up and aligned with the scheduler order) and i is a
multiple of callback_steps. -/
def callbackInvoked (lenTimesteps : ℕ) (warmup : ℤ) (order : ℕ)
    (callbackSteps : ℕ) (i : ℕ) : Bool :=
  (i == lenTimesteps - 1 ||
      ((i : ℤ) + 1 > warmup && (i + 1) % order == 0)) &&
    i % callbackSteps == 0

/-- Line 281 model: the prompt argument may be a Python str, a list of str,
or a value of any other type. -/
inductive PromptArg
  | str (s : String)
  | list (l : List String)
  | other
deriving DecidableEq

/-- Prompt type test of line 281: true when the prompt is neither a string
nor a list. -/
def promptTypeInvalid : PromptArg → Bool
  | .str _ => false
  | .list _ => false
  | .other => true

/-- Callback-steps test of lines 287-289: true when callback_steps is None,
not an int, or a non-positive int. -/
def callbackStepsInvalid : CallbackStepsArg → Bool
  | .int n => decide (n ≤ 0)
  | .noneV => true
  | .otherV => true

/-- Frame axis length of a latent tensor, the analogue of shape[2]. -/
def tensorFrames (t : Tensor) : ℕ := (t.headD []).length

/-- Lines 280-296: eager input validation.  The checks run in source order
and raise on the first violated condition: prompt type, height and width
divisibility by 8, callback_steps positivity, and agreement of a per-frame
prompt list with the frame axis of explicitly supplied latents. -/
def check_inputs (prompt : PromptArg) (height width : ℕ)
    (callbackSteps : CallbackStepsArg) (latents : Option Tensor) :
    Except String Unit :=
  if promptTypeInvalid prompt then
    .error "prompt has to be of type str or list"
  else if height % 8 ≠ 0 ∨ width % 8 ≠ 0 then
    .error "height and width have to be divisible by 8"
  else if callbackStepsInvalid callbackSteps then
    .error "callback_steps has to be a positive integer"
  else
    match prompt, latents with
    | .list l, some lat =>
        if l.length ≠ tensorFrames lat then
          .error "prompt is list but does not match all frames"
        else .ok ()
    | _, _ => .ok ()

/-- Shape descriptor of a tensor in this embedding: batch length, frame
length of the first sample, and value-vector length of its first frame. -/
def tensorShape (t : Tensor) : ℕ × ℕ × ℕ :=
  (t.length, (t.headD []).length, ((t.headD []).headD []).length)

/-- Lines 298-339: latent preparation.  A supplied generator list must match
the batch size; freshly drawn noise stands in for torch.randn when no
latents are supplied; explicitly supplied latents must have the expected
shape; either way the result is scaled by the scheduler's init_noise_sigma
constant (line 338).  The expected combined value-vector length flattens the
channel and spatial axes of the source's five-axis shape. -/
def prepare_latents (initNoiseSigma : ℚ) (batchSize numChannelsLatents
    videoLength height width vaeScaleFactor : ℕ) (generatorCount : Option ℕ)
    (latents : Option Tensor) (freshNoise : Tensor) : Except String Tensor :=
  let expected : ℕ × ℕ × ℕ :=
    (batchSize, videoLength,
      numChannelsLatents * (height / vaeScaleFactor) * (width / vaeScaleFactor))
  if generatorCount.any (fun g => g != batchSize) then
    .error "generator list length does not match the requested batch size"
  else
    match latents with
    | none => .ok (tensorSmul initNoiseSigma freshNoise)
    | some l =>
        if tensorShape l ≠ expected then
          .error "Unexpected latents shape"
        else .ok (tensorSmul initNoiseSigma l)

/-- Addition of two batch elements with broadcasting over a singleton frame
axis on the left operand, mirroring torch broadcasting in line 441 where a
one-frame tensor is added to a full tensor. -/
def sampleAddBroadcast (a b : Sample) : Sample :=
  if a.length = 1 then b.map (pixAdd (a.headD [])) else List.zipWith pixAdd a b

/-- Model of the einops repeat of line 442 with pattern b c 1 h w to
b c f h w: it succeeds only when every batch element has exactly one frame,
and then replicates that frame across the requested frame count; any other
frame length is a shape mismatch error. -/
def einopsRepeatFrames (t : Tensor) (f : ℕ) : Option Tensor :=
  if t.all (fun s => s.length == 1) then
    some (t.map (fun s => List.replicate f (s.headD [])))
  else none

/-- Lines 440-443: the mask branch.  Frame 0 is extracted, the latents are
blended as mask1 * frame0 + mask0 * latents with the frame-axis broadcast of
the left summand, and the result is pushed through the einops repeat, which
demands a singleton frame axis. -/
def maskBlendStep (mask0 mask1 : Pix) (videoLength : ℕ) (lat : Tensor) :
    Option Tensor :=
  let f1 : Tensor := lat.map (fun s => s.take 1)
  let blended : Tensor :=
    List.zipWith
      (fun s1 s =>
        sampleAddBroadcast (s1.map (pixMul mask1)) (s.map (pixMul mask0)))
      f1 lat
  einopsRepeatFrames blended videoLength

/-- Lines 457-458 scatter on one batch element: sequentially assign the
frame at each listed index to the corresponding supplied frame, mirroring
torch advanced-indexing assignment. -/
def scatterFrames (s : Sample) (idx : List ℕ) (vals : Sample) : Sample :=
  (idx.zip vals).foldl (fun acc pr => acc.set pr.1 pr.2) s

/-- Lines 457-458 on a full tensor: per batch element, overwrite the frames
at the constrained indices with the externally supplied constraint frames. -/
def scatterFixedTensor (lat : Tensor) (idx : List ℕ) (vals : Tensor) :
    Tensor :=
  List.zipWith (fun s v => scatterFrames s idx v) lat vals

section DenoiseIteration

variable (unet : Tensor → ℤ → EmbT → Tensor)
variable (scaleModelInput : Tensor → ℤ → Tensor)
variable (schedStep : Tensor → ℤ → Tensor → Tensor)
variable (ctrlStep : Tensor → Option (List ℕ) → Tensor)

/-- Lines 424-460: one full iteration of the denoising loop at step index i
and timestep t: guidance-combined estimate, scheduler step, optional mask
blend during the first ten steps (fallible), progress callback (no latent
effect), consistency-controller step hook, optional fixed-latent overwrite
for the next step, and cache eviction (no latent effect). -/
def denoiseIterate (g : ℚ) (emb : EmbT) (mask : Option (Pix × Pix))
    (fixedLatents : Option (ℕ → Tensor)) (fixedLatentsIdx : List ℕ)
    (innerIdx : Option (List ℕ)) (videoLength : ℕ) (i : ℕ) (t : ℤ)
    (lat : Tensor) : Option Tensor :=
  let lat1 := schedStep (noisePredFinal unet scaleModelInput g emb t lat) t lat
  let lat2? :=
    match mask with
    | some m => if i < 10 then maskBlendStep m.1 m.2 videoLength lat1 else some lat1
    | none => some lat1
  match lat2? with
  | none => none
  | some lat2 =>
      let lat3 := ctrlStep lat2 innerIdx
      match fixedLatents with
      | some fl => some (scatterFixedTensor lat3 fixedLatentsIdx (fl (i + 1)))
      | none => some lat3

end DenoiseIteration

/-- Network collaborator invocations recorded by the pipeline model. -/
inductive NetCall
  | textEncoder
  | unetForward
  | vaeDecode
deriving DecidableEq

/-- Slice assignment of lines 395-396: overwrite the tail of the embedding
batch from position n on with the supplied rows; torch requires the shapes
to agree. -/
def sliceAssignTail (t : EmbT) (n : ℕ) (v : EmbT) : Except String EmbT :=
  if t.length - n = v.length then .ok (t.take n ++ v)
  else .error "shape mismatch in embedding slice assignment"

/-- Line 480: the conditioning embeddings returned to the caller are the rows
of the embedding batch from position video_length on. -/
def returnedTextEmbedding (t : EmbT) (videoLength : ℕ) : EmbT :=
  t.drop videoLength

/-- Model of the Python default expression height or default: a missing or
zero (falsy) value is replaced by the default. -/
def pyOrDefault (v : Option ℕ) (d : ℕ) : ℕ :=
  match v with
  | some x => if x = 0 then d else x
  | none => d

/-- Arguments of a sampler-loop invocation (lines 342-368), restricted to
the fields the embedded behavior depends on. -/
structure CallArgs where
  prompt : PromptArg
  videoLength : ℕ
  height : Option ℕ
  width : Option ℕ
  numInferenceSteps : ℕ
  guidanceScale : ℚ
  callbackSteps : CallbackStepsArg
  generatorCount : Option ℕ
  latents : Option Tensor
  initTextEmbedding : Option EmbT
  mask : Option (Pix × Pix)
  fixedLatents : Option (ℕ → Tensor)
  fixedLatentsIdx : List ℕ
  innerIdx : Option (List ℕ)

section PipelineCall

variable (unet : Tensor → ℤ → EmbT → Tensor)
variable (scaleModelInput : Tensor → ℤ → Tensor)
variable (schedStep : Tensor → ℤ → Tensor → Tensor)
variable (ctrlStep : Tensor → Option (List ℕ) → Tensor)

/-- Lines 422-460: the denoising loop over the timestep schedule, recording
one denoising-network invocation per step and aborting with the propagated
error when an iteration fails (spec section 7: no local recovery). -/
def denoiseLoop (g : ℚ) (emb : EmbT) (mask : Option (Pix × Pix))
    (fixedLatents : Option (ℕ → Tensor)) (fixedLatentsIdx : List ℕ)
    (innerIdx : Option (List ℕ)) (videoLength : ℕ) :
    List ℤ → ℕ → Tensor → List NetCall × Except String Tensor
  | [], _, lat => ([], .ok lat)
  | t :: ts, i, lat =>
      match denoiseIterate unet scaleModelInput schedStep ctrlStep g emb mask
          fixedLatents fixedLatentsIdx innerIdx videoLength i t lat with
      | none => ([NetCall.unetForward], .error "einops shape mismatch in mask repeat")
      | some lat' =>
          let rest := denoiseLoop g emb mask fixedLatents fixedLatentsIdx
            innerIdx videoLength ts (i + 1) lat'
          (NetCall.unetForward :: rest.1, rest.2)

variable (timestepsOf : ℕ → List ℤ)
variable (uncondEmb condEmb : EmbT)
variable (freshNoise : Tensor)
variable (initNoiseSigma : ℚ)
variable (numChannelsLatents vaeScaleFactor unetSampleSize : ℕ)

/-- Lines 370-482: the sampler-loop entry point.  Controller reset and
height or width defaulting come first (no network calls), then the eager
input validation of check_inputs; only afterwards are the text encoder, the
denoising network, and the decoder invoked.  The first component of the
result is the ordered trace of network-collaborator calls; the batch size is
the literal 1 of line 383. -/
def pipelineCall (a : CallArgs) : List NetCall × Except String Tensor :=
  let height := pyOrDefault a.height (unetSampleSize * vaeScaleFactor)
  let width := pyOrDefault a.width (unetSampleSize * vaeScaleFactor)
  match check_inputs a.prompt height width a.callbackSteps a.latents with
  | .error e => ([], .error e)
  | .ok _ =>
      let doCfg := decide (doClassifierFreeGuidance a.guidanceScale)
      let encCalls :=
        if doCfg then [NetCall.textEncoder, NetCall.textEncoder]
        else [NetCall.textEncoder]
      let emb0 := textEmbeddingsUsed a.guidanceScale uncondEmb condEmb
      let embStep : Except String EmbT :=
        match a.initTextEmbedding with
        | some ie => sliceAssignTail emb0 a.videoLength ie
        | none => .ok emb0
      match embStep with
      | .error e => (encCalls, .error e)
      | .ok emb =>
          match prepare_latents initNoiseSigma 1 numChannelsLatents
              a.videoLength height width vaeScaleFactor a.generatorCount
              a.latents freshNoise with
          | .error e => (encCalls, .error e)
          | .ok lat0 =>
              let looped := denoiseLoop unet scaleModelInput schedStep ctrlStep
                a.guidanceScale emb a.mask a.fixedLatents a.fixedLatentsIdx
                a.innerIdx a.videoLength (timestepsOf a.numInferenceSteps) 0
                lat0
              match looped.2 with
              | .error e => (encCalls ++ looped.1, .error e)
              | .ok latFinal =>
                  (encCalls ++ looped.1 ++ [NetCall.vaeDecode], .ok latFinal)

end PipelineCall

/-- Python list indexing with a possibly negative index: a negative index
wraps once from the end, as in the source's prompt_i - 1 accesses. -/
def pyGetD {α : Type} (l : List α) (j : ℤ) (d : α) : α :=
  if 0 ≤ j then l.getD j.toNat d else l.getD (l.length - (-j).toNat) d

/-- Python list.index: position of the first occurrence, mirroring line 553;
on a missing element it returns the length (the source would raise there,
which is unreachable in the embedded uses). -/
def listIndex (a : ℕ) : List ℕ → ℕ
  | [] => 0
  | b :: l => if b = a then 0 else listIndex a l + 1

/-- Line 535 model: mean squared difference of two flattened frames, the
adjacent-frame dissimilarity measure. -/
def mseLoss (a b : Pix) : ℚ :=
  (List.zipWith (fun x y => (x - y) ^ 2) a b).sum / a.length

/-- Lines 533-535: dissimilarities of every consecutive frame pair of the
current decoded sample sequence. -/
def distList (samples : List Pix) : List ℚ :=
  (List.range (samples.length - 1)).map
    (fun i => mseLoss (samples.getD (i + 1) []) (samples.getD i []))

/-- Index of a maximal element, first occurrence on ties.  This models
torch.topk with k = 1 of line 538; the tie-break of the underlying ranking
primitive is unspecified (spec section 9), and no embedded claim depends on
which maximal index is selected. -/
def argmaxFirst : List ℚ → ℕ
  | [] => 0
  | [_] => 0
  | x :: y :: rest =>
      let j := argmaxFirst (y :: rest)
      if x < (y :: rest).getD j 0 then j + 1 else 0

/-- Lines 538-542 with the source's literal num_insert = 1: the insertion
position is the selected pair index plus one. -/
def insertPos (samples : List Pix) : ℕ :=
  argmaxFirst (distList samples) + 1

/-- Accumulator of the layout-rebuild loop of lines 545-566: the running
kept-frame counter prompt_i and the three rebuilt per-frame lists. -/
structure Layout where
  promptI : ℕ
  prompts : List String
  noises : List Pix
  embs : List Emb
deriving DecidableEq

/-- Lines 549-566, one loop body at new position i with insertion position p
(tgt_idx = [p] since num_insert = 1).  An inserted position receives the
empty prompt, the spherical-style noise blend of the base noise's frame 0
with fresh noise, and the position-weighted interpolation of the embeddings
of the neighbouring kept frames found through the sorted search list; a kept
position carries its previous prompt, noise and embedding and advances the
kept counter.  The scalars cosc and sinc stand for the evaluated
np.cos(rand_ratio * pi / 2) and np.sin(rand_ratio * pi / 2). -/
def insertStep (origIdx : List ℕ) (oldPrompts : List String)
    (oldNoise : List Pix) (oldEmbs : List Emb) (cosc sinc : ℚ) (base0 : Pix)
    (fresh : Pix) (p : ℕ) (acc : Layout) (i : ℕ) : Layout :=
  if i = p then
    let searchIdx := (origIdx ++ [i]).mergeSort (fun a b => decide (a ≤ b))
    let find := listIndex i searchIdx
    let preIdx := pyGetD searchIdx ((find : ℤ) - 1) 0
    let nextIdx := searchIdx.getD (find + 1) 0
    let len : ℚ := (nextIdx : ℚ) - (preIdx : ℚ)
    { promptI := acc.promptI
      prompts := acc.prompts ++ [""]
      noises := acc.noises ++ [pixAdd (pixSmul cosc base0) (pixSmul sinc fresh)]
      embs := acc.embs ++
        [pixAdd
          (pixSmul (((nextIdx : ℚ) - (i : ℚ)) / len)
            (pyGetD oldEmbs ((acc.promptI : ℤ) - 1) []))
          (pixSmul (((i : ℚ) - (preIdx : ℚ)) / len)
            (oldEmbs.getD acc.promptI []))] }
  else
    { promptI := acc.promptI + 1
      prompts := acc.prompts ++ [oldPrompts.getD acc.promptI ""]
      noises := acc.noises ++ [oldNoise.getD acc.promptI []]
      embs := acc.embs ++ [oldEmbs.getD acc.promptI []] }

/-- State carried between orchestrator iterations: the decoded sample
sequence, the per-frame noise, the per-frame conditioning embeddings and the
per-frame prompt texts. -/
structure InterpState where
  samples : List Pix
  xNoise : List Pix
  embs : List Emb
  prompts : List String
deriving DecidableEq

/-- Kept positions of lines 544: every new position other than the inserted
one. -/
def keptIdx (p tgtLen : ℕ) : List ℕ :=
  (List.range tgtLen).filter (fun i => decide (i ≠ p))

/-- Lines 532-572: one full layout rebuild, folding the loop body over the
new positions 0 .. f with the insertion position computed from the current
samples. -/
def rebuilt (st : InterpState) (cosc sinc : ℚ) (baseNoise : List Pix)
    (fresh : Pix) : Layout :=
  let f := st.samples.length
  let p := insertPos st.samples
  let tgtLen := f + 1
  let origIdx := keptIdx p tgtLen
  (List.range tgtLen).foldl
    (insertStep origIdx st.prompts st.xNoise st.embs cosc sinc
      (baseNoise.getD 0 []) fresh p)
    { promptI := 0, prompts := [], noises := [], embs := [] }

section Interpolation

/- The re-invoked sampler loop as seen by the orchestrator: it receives the
rebuilt prompts, the new frame count, the blended noise, the rebuilt
embeddings, the inserted positions and the fixed-constraint positions, and
yields the next decoded sample sequence.  The controller's latent store
slices passed as fixed_latents are folded into this collaborator. -/
variable (sampler : List String → ℕ → List Pix → List Emb → List ℕ →
  List ℕ → List Pix)

variable (cosc sinc : ℚ) (baseNoise : List Pix)

/-- Lines 524-596: one orchestrator iteration.  The layout is rebuilt around
the insertion position, the sampler is re-invoked with the new frame count,
and its decoded output together with the rebuilt noise, embeddings and
prompts seeds the next iteration. -/
def interpIter (fresh : Pix) (st : InterpState) : InterpState :=
  let f := st.samples.length
  let p := insertPos st.samples
  let L := rebuilt st cosc sinc baseNoise fresh
  { samples := sampler L.prompts (f + 1) L.noises L.embs [p] (keptIdx p (f + 1))
    xNoise := L.noises
    embs := L.embs
    prompts := L.prompts }

/-- Lines 520-598: the orchestrator loop while times < k runs exactly k
iterations; freshSeq supplies the per-iteration torch.randn_like draw. -/
def interpolateK (freshSeq : ℕ → Pix) : ℕ → InterpState → InterpState
  | 0, st => st
  | k + 1, st =>
      interpolateK freshSeq k
        (interpIter sampler cosc sinc baseNoise (freshSeq k) st)

/-- New position of a kept frame after one insertion at position p. -/
def shiftIdx (p j : ℕ) : ℕ := if j < p then j else j + 1

/-- Composed position of an originally kept frame after k iterations. -/
def keptMap (freshSeq : ℕ → Pix) : ℕ → InterpState → ℕ → ℕ
  | 0, _, j => j
  | k + 1, st, j =>
      keptMap freshSeq k (interpIter sampler cosc sinc baseNoise (freshSeq k) st)
        (shiftIdx (insertPos st.samples) j)

end Interpolation

/-- Well-formedness of an orchestrator state: at least two frames (the
dissimilarity list of line 535 is nonempty) and index-aligned per-frame
lists. -/
def InterpWF (st : InterpState) : Prop :=
  2 ≤ st.samples.length ∧ st.xNoise.length = st.samples.length ∧
    st.embs.length = st.samples.length ∧ st.prompts.length = st.samples.length

instance (st : InterpState) : Decidable (InterpWF st) := by
  unfold InterpWF; infer_instance

/-! Helper lemmas. -/

lemma doCFG_iff (g : ℚ) : doClassifierFreeGuidance g ↔ 1 < g := Iff.rfl

lemma pixCombine_one (u c : Pix) (h : u.length = c.length) :
    pixCombine 1 u c = c := by
  unfold pixCombine
  induction u generalizing c with
  | nil =>
      cases c with
      | nil => rfl
      | cons b c => simp at h
  | cons a u ih =>
      cases c with
      | nil => simp at h
      | cons b c =>
          simp only [List.zipWith_cons_cons, List.length_cons] at h ⊢
          refine congrArg₂ (· :: ·) (by ring) (ih c (by omega))

lemma scatterFrames_nil (s : Sample) (vals : List Pix) :
    scatterFrames s [] vals = s := rfl

lemma scatterFrames_cons (s : Sample) (a : ℕ) (idx : List ℕ) (b : Pix)
    (vals : List Pix) :
    scatterFrames s (a :: idx) (b :: vals) =
      scatterFrames (s.set a b) idx vals := rfl

lemma scatterFrames_getD_not_mem (s : Sample) (idx : List ℕ)
    (vals : List Pix) (j : ℕ) (hj : j ∉ idx) :
    (scatterFrames s idx vals).getD j [] = s.getD j [] := by
  induction idx generalizing s vals with
  | nil => rfl
  | cons a idx ih =>
      cases vals with
      | nil => rfl
      | cons b vals =>
          rw [scatterFrames_cons]
          have hja : a ≠ j := fun h => hj (by simp [h.symm])
          rw [ih (s.set a b) vals (fun h => hj (List.mem_cons_of_mem _ h))]
          simp [List.getD_eq_getElem?_getD, List.getElem?_set_ne hja]

lemma scatterFrames_getD_mem (s : Sample) (idx : List ℕ) (vals : List Pix)
    (k : ℕ) (hnodup : idx.Nodup) (hk : k < idx.length) (hkv : k < vals.length)
    (hb : idx.getD k 0 < s.length) :
    (scatterFrames s idx vals).getD (idx.getD k 0) [] = vals.getD k [] := by
  induction idx generalizing s vals k with
  | nil => simp at hk
  | cons a idx ih =>
      cases vals with
      | nil => simp at hkv
      | cons b vals =>
          rw [scatterFrames_cons]
          cases k with
          | zero =>
              have ha : a ∉ idx := (List.nodup_cons.mp hnodup).1
              rw [show (a :: idx).getD 0 0 = a from rfl] at hb ⊢
              rw [scatterFrames_getD_not_mem _ _ _ _ ha]
              simp [List.getD_eq_getElem?_getD,
                List.getElem?_set_self (by simpa using hb)]
          | succ k =>
              have h1 : (a :: idx).getD (k + 1) 0 = idx.getD k 0 := rfl
              rw [h1] at hb ⊢
              rw [ih (s.set a b) vals k (List.nodup_cons.mp hnodup).2
                (by simpa using hk) (by simpa using hkv)
                (by simpa [List.length_set] using hb)]
              rfl

lemma argmaxFirst_lt_length (l : List ℚ) (h : l ≠ []) :
    argmaxFirst l < l.length := by
  induction l with
  | nil => exact absurd rfl h
  | cons x xs ih =>
      cases xs with
      | nil => simp [argmaxFirst]
      | cons y rest =>
          have hlt := ih (by simp)
          rw [argmaxFirst]
          split
          · simpa using Nat.succ_lt_succ hlt
          · simp

lemma distList_length (samples : List Pix) :
    (distList samples).length = samples.length - 1 := by
  simp [distList]

lemma insertPos_pos (samples : List Pix) : 1 ≤ insertPos samples := by
  simp [insertPos]

lemma insertPos_le (samples : List Pix) (h : 2 ≤ samples.length) :
    insertPos samples ≤ samples.length - 1 := by
  have hne : distList samples ≠ [] := by
    have : (distList samples).length ≠ 0 := by
      rw [distList_length]; omega
    exact fun hh => this (by simp [hh])
  have := argmaxFirst_lt_length (distList samples) hne
  rw [distList_length] at this
  unfold insertPos
  omega

lemma listIndex_map_succ (a : ℕ) (l : List ℕ) :
    listIndex (a + 1) (l.map Nat.succ) = listIndex a l := by
  induction l with
  | nil => rfl
  | cons b l ih =>
      simp only [List.map_cons, listIndex]
      by_cases hb : b = a
      · simp [hb]
      · have hb' : ¬ (Nat.succ b = a + 1) := fun h => hb (by omega)
        simp [hb, hb', ih]

lemma listIndex_range (p n : ℕ) (h : p < n) :
    listIndex p (List.range n) = p := by
  induction n generalizing p with
  | zero => omega
  | succ m ih =>
      rw [List.range_succ_eq_map]
      cases p with
      | zero => simp [listIndex]
      | succ q =>
          have hq : q < m := by omega
          have h0 : (0 : ℕ) ≠ q + 1 := by omega
          rw [listIndex, if_neg h0, listIndex_map_succ, ih q hq]

lemma range_getD (n i : ℕ) (h : i < n) : (List.range n).getD i 0 = i := by
  rw [List.getD_eq_getElem?_getD, List.getElem?_range h]
  rfl

lemma range_filter_eq (n p : ℕ) (h : p < n) :
    (List.range n).filter (fun i => decide (i = p)) = [p] := by
  induction n with
  | zero => omega
  | succ m ih =>
      rw [List.range_succ, List.filter_append]
      by_cases hp : p = m
      · subst hp
        have hnil : (List.range p).filter (fun i => decide (i = p)) = [] := by
          rw [List.filter_eq_nil_iff]
          intro a ha
          simp only [decide_eq_true_eq]
          exact Nat.ne_of_lt (List.mem_range.mp ha)
        simp [hnil]
      · have hp' : p < m := by omega
        rw [ih hp']
        simp [Ne.symm hp, hp]

lemma keptIdx_append_sorted (p n : ℕ) (h : p < n) :
    (keptIdx p n ++ [p]).mergeSort (fun a b => decide (a ≤ b)) =
      List.range n := by
  have hperm : (keptIdx p n ++ [p]).Perm (List.range n) := by
    have h1 : [p] = (List.range n).filter (fun i => decide (i = p)) :=
      (range_filter_eq n p h).symm
    have h2 : keptIdx p n =
        (List.range n).filter (fun i => !(fun i => decide (i = p)) i) := by
      unfold keptIdx
      congr 1
      funext i
      simp [decide_not]
    have h3 : ((List.range n).filter (fun i => decide (i = p)) ++
        (List.range n).filter (fun i => !(fun i => decide (i = p)) i)).Perm
        (List.range n) := List.filter_append_perm _ _
    rw [h1, h2]
    exact List.perm_append_comm.trans h3
  have hperm2 : ((keptIdx p n ++ [p]).mergeSort
      (fun a b => decide (a ≤ b))).Perm (List.range n) :=
    (List.mergeSort_perm _ _).trans hperm
  have hsortedL : List.Sorted (fun a b : ℕ => a ≤ b)
      ((keptIdx p n ++ [p]).mergeSort (fun a b => decide (a ≤ b))) := by
    have hs := @List.sorted_mergeSort ℕ (fun a b : ℕ => decide (a ≤ b))
      (fun a b c hab hbc => by
        simp only [decide_eq_true_eq] at *; omega)
      (fun a b => by
        simp only [Bool.or_eq_true, decide_eq_true_eq]; omega)
      (keptIdx p n ++ [p])
    exact hs.imp (fun hab => by simpa using hab)
  have hsortedR : List.Sorted (fun a b : ℕ => a ≤ b) (List.range n) :=
    List.sorted_le_range n
  exact List.eq_of_perm_of_sorted hperm2 hsortedL hsortedR

lemma insertStep_kept (origIdx : List ℕ) (oldPrompts : List String)
    (oldNoise : List Pix) (oldEmbs : List Emb) (cosc sinc : ℚ)
    (base0 fresh : Pix) (p : ℕ) (acc : Layout) (i : ℕ) (h : i ≠ p) :
    insertStep origIdx oldPrompts oldNoise oldEmbs cosc sinc base0 fresh p
        acc i =
      { promptI := acc.promptI + 1
        prompts := acc.prompts ++ [oldPrompts.getD acc.promptI ""]
        noises := acc.noises ++ [oldNoise.getD acc.promptI []]
        embs := acc.embs ++ [oldEmbs.getD acc.promptI []] } := by
  rw [insertStep, if_neg h]

lemma snoc_map_shift {α : Type} (g : ℕ → α) (ps : List α) (q n : ℕ) :
    (ps ++ [g q]) ++ (List.range n).map (fun j => g (q + 1 + j)) =
      ps ++ (List.range (n + 1)).map (fun j => g (q + j)) := by
  rw [List.append_assoc, List.range_succ_eq_map, List.map_cons, List.map_map]
  congr 1
  rw [List.singleton_append]
  congr 1
  exact List.map_congr_left (fun a _ => congrArg g (by omega))

lemma foldl_insertStep_kept (origIdx : List ℕ) (oldPrompts : List String)
    (oldNoise : List Pix) (oldEmbs : List Emb) (cosc sinc : ℚ)
    (base0 fresh : Pix) (p : ℕ) :
    ∀ (l : List ℕ), (∀ x ∈ l, x ≠ p) → ∀ (acc : Layout),
      l.foldl
          (insertStep origIdx oldPrompts oldNoise oldEmbs cosc sinc base0
            fresh p) acc =
        { promptI := acc.promptI + l.length
          prompts := acc.prompts ++
            (List.range l.length).map
              (fun j => oldPrompts.getD (acc.promptI + j) "")
          noises := acc.noises ++
            (List.range l.length).map
              (fun j => oldNoise.getD (acc.promptI + j) [])
          embs := acc.embs ++
            (List.range l.length).map
              (fun j => oldEmbs.getD (acc.promptI + j) []) } := by
  intro l
  induction l with
  | nil => intro _ acc; simp
  | cons x l ih =>
      intro hl acc
      rw [List.foldl_cons,
        insertStep_kept origIdx oldPrompts oldNoise oldEmbs cosc sinc base0
          fresh p acc x (hl x (List.mem_cons_self x l)),
        ih (fun y hy => hl y (List.mem_cons_of_mem x hy)) _]
      simp only [Layout.mk.injEq, List.length_cons]
      refine ⟨by omega, ?_, ?_, ?_⟩
      · exact snoc_map_shift (fun m => oldPrompts.getD m "") acc.prompts
          acc.promptI l.length
      · exact snoc_map_shift (fun m => oldNoise.getD m []) acc.noises
          acc.promptI l.length
      · exact snoc_map_shift (fun m => oldEmbs.getD m []) acc.embs
          acc.promptI l.length

lemma pyGetD_sub_one {α : Type} (l : List α) (p : ℕ) (d : α) (hp : 1 ≤ p) :
    pyGetD l ((p : ℤ) - 1) d = l.getD (p - 1) d := by
  unfold pyGetD
  have h0 : (0 : ℤ) ≤ (p : ℤ) - 1 := by omega
  rw [if_pos h0]
  congr 1
  omega

lemma insertStep_at_p (oldPrompts : List String) (oldNoise : List Pix)
    (oldEmbs : List Emb) (cosc sinc : ℚ) (base0 fresh : Pix) (p f : ℕ)
    (acc : Layout) (hacc : acc.promptI = p) (hp1 : 1 ≤ p) (hpf : p + 1 ≤ f) :
    insertStep (keptIdx p (f + 1)) oldPrompts oldNoise oldEmbs cosc sinc
        base0 fresh p acc p =
      { promptI := p
        prompts := acc.prompts ++ [""]
        noises := acc.noises ++
          [pixAdd (pixSmul cosc base0) (pixSmul sinc fresh)]
        embs := acc.embs ++
          [pixAdd (pixSmul (1 / 2) (oldEmbs.getD (p - 1) []))
            (pixSmul (1 / 2) (oldEmbs.getD p []))] } := by
  have hsear := keptIdx_append_sorted p (f + 1) (by omega)
  have hfind := listIndex_range p (f + 1) (by omega)
  have hpre : pyGetD (List.range (f + 1)) ((p : ℤ) - 1) 0 = p - 1 := by
    rw [pyGetD_sub_one _ _ _ hp1]
    exact range_getD _ _ (by omega)
  have hnext : (List.range (f + 1)).getD (p + 1) 0 = p + 1 :=
    range_getD _ _ (by omega)
  have hemb : pyGetD oldEmbs ((p : ℤ) - 1) [] = oldEmbs.getD (p - 1) [] :=
    pyGetD_sub_one _ _ _ hp1
  have hcast : ((p - 1 : ℕ) : ℚ) = (p : ℚ) - 1 := by
    rw [Nat.cast_sub hp1]
    norm_num
  simp only [insertStep, eq_self_iff_true, if_true, hsear, hfind, hpre,
    hnext, hacc, hemb]
  have hd : ((p + 1 : ℕ) : ℚ) - ((p - 1 : ℕ) : ℚ) = 2 := by
    rw [hcast]; push_cast; ring
  have hn1 : ((p + 1 : ℕ) : ℚ) - (p : ℚ) = 1 := by push_cast; ring
  have hn2 : (p : ℚ) - ((p - 1 : ℕ) : ℚ) = 1 := by rw [hcast]; ring
  rw [hd, hn1, hn2]

lemma foldl_insertStep_full (oldPrompts : List String) (oldNoise : List Pix)
    (oldEmbs : List Emb) (cosc sinc : ℚ) (base0 fresh : Pix) (p f : ℕ)
    (hp1 : 1 ≤ p) (hpf : p + 1 ≤ f) :
    (List.range (f + 1)).foldl
        (insertStep (keptIdx p (f + 1)) oldPrompts oldNoise oldEmbs cosc sinc
          base0 fresh p)
        { promptI := 0, prompts := [], noises := [], embs := [] } =
      { promptI := f
        prompts := (List.range p).map (fun j => oldPrompts.getD j "") ++
          [""] ++
          (List.range (f - p)).map (fun j => oldPrompts.getD (p + j) "")
        noises := (List.range p).map (fun j => oldNoise.getD j []) ++
          [pixAdd (pixSmul cosc base0) (pixSmul sinc fresh)] ++
          (List.range (f - p)).map (fun j => oldNoise.getD (p + j) [])
        embs := (List.range p).map (fun j => oldEmbs.getD j []) ++
          [pixAdd (pixSmul (1 / 2) (oldEmbs.getD (p - 1) []))
            (pixSmul (1 / 2) (oldEmbs.getD p []))] ++
          (List.range (f - p)).map (fun j => oldEmbs.getD (p + j) []) } := by
  have hsplit : List.range (f + 1) =
      List.range p ++ (p + 0) ::
        (List.range (f - p)).map ((fun x => p + x) ∘ Nat.succ) := by
    have h1 : f + 1 = p + (f + 1 - p) := by omega
    rw [h1, List.range_add]
    congr 1
    have h2 : f + 1 - p = (f - p) + 1 := by omega
    rw [h2, List.range_succ_eq_map, List.map_cons, List.map_map]
  rw [hsplit, List.foldl_append, List.foldl_cons,
    foldl_insertStep_kept (keptIdx p (f + 1)) oldPrompts oldNoise oldEmbs
      cosc sinc base0 fresh p (List.range p)
      (fun x hx => by have := List.mem_range.mp hx; omega) _]
  simp only [List.length_range, Nat.zero_add, List.nil_append, Nat.add_zero]
  rw [insertStep_at_p oldPrompts oldNoise oldEmbs cosc sinc base0 fresh p f _
    rfl hp1 hpf]
  rw [foldl_insertStep_kept (keptIdx p (f + 1)) oldPrompts oldNoise oldEmbs
    cosc sinc base0 fresh p
    ((List.range (f - p)).map ((fun x => p + x) ∘ Nat.succ))
    (fun x hx => by
      obtain ⟨a, _, rfl⟩ := List.mem_map.mp hx
      simp only [Function.comp_apply]
      omega) _]
  simp only [List.length_map, List.length_range, Layout.mk.injEq]
  refine ⟨by omega, ?_, ?_, ?_⟩ <;> first | rfl | trivial

lemma rebuilt_eq (st : InterpState) (cosc sinc : ℚ) (baseNoise : List Pix)
    (fresh : Pix) (hf : 2 ≤ st.samples.length) :
    rebuilt st cosc sinc baseNoise fresh =
      { promptI := st.samples.length
        prompts :=
          (List.range (insertPos st.samples)).map
              (fun j => st.prompts.getD j "") ++ [""] ++
            (List.range (st.samples.length - insertPos st.samples)).map
              (fun j => st.prompts.getD (insertPos st.samples + j) "")
        noises :=
          (List.range (insertPos st.samples)).map
              (fun j => st.xNoise.getD j []) ++
            [pixAdd (pixSmul cosc (baseNoise.getD 0 []))
              (pixSmul sinc fresh)] ++
            (List.range (st.samples.length - insertPos st.samples)).map
              (fun j => st.xNoise.getD (insertPos st.samples + j) [])
        embs :=
          (List.range (insertPos st.samples)).map
              (fun j => st.embs.getD j []) ++
            [pixAdd
              (pixSmul (1 / 2)
                (st.embs.getD (insertPos st.samples - 1) []))
              (pixSmul (1 / 2) (st.embs.getD (insertPos st.samples) []))] ++
            (List.range (st.samples.length - insertPos st.samples)).map
              (fun j => st.embs.getD (insertPos st.samples + j) []) } := by
  have hp1 : 1 ≤ insertPos st.samples := insertPos_pos _
  have hpf : insertPos st.samples ≤ st.samples.length - 1 :=
    insertPos_le _ hf
  exact foldl_insertStep_full st.prompts st.xNoise st.embs cosc sinc
    (baseNoise.getD 0 []) fresh (insertPos st.samples) st.samples.length hp1
    (by omega)

lemma map_range_getD {α : Type} (g : ℕ → α) (m j : ℕ) (d : α) (h : j < m) :
    ((List.range m).map g).getD j d = g j := by
  rw [List.getD_eq_getElem?_getD, List.getElem?_map, List.getElem?_range h]
  rfl

lemma triple_getD_lt {α : Type} (g : ℕ → α) (p j : ℕ) (x : α) (B : List α)
    (d : α) (hj : j < p) :
    ((List.range p).map g ++ [x] ++ B).getD j d = g j := by
  have hlen : j < ((List.range p).map g).length := by
    simp only [List.length_map, List.length_range]
    omega
  rw [List.append_assoc, List.getD_append _ _ _ _ hlen]
  exact map_range_getD g p j d hj

lemma triple_getD_at {α : Type} (g : ℕ → α) (p : ℕ) (x : α) (B : List α)
    (d : α) :
    ((List.range p).map g ++ [x] ++ B).getD p d = x := by
  rw [List.getD_append _ _ _ _ (by simp)]
  rw [List.getD_append_right _ _ _ _ (by simp)]
  simp

lemma triple_getD_gt {α : Type} (g g' : ℕ → α) (p m j : ℕ) (x : α) (d : α)
    (hj : p < j) (hjm : j < p + 1 + m) :
    ((List.range p).map g ++ [x] ++ (List.range m).map g').getD j d =
      g' (j - (p + 1)) := by
  rw [List.getD_append_right _ _ _ _ (by simp; omega)]
  have hlen : ((List.range p).map g ++ [x]).length = p + 1 := by simp
  rw [hlen]
  exact map_range_getD g' m (j - (p + 1)) d (by omega)

lemma rebuilt_embs_getD_lt (st : InterpState) (cosc sinc : ℚ)
    (baseNoise : List Pix) (fresh : Pix) (hf : 2 ≤ st.samples.length) (j : ℕ)
    (hj : j < insertPos st.samples) :
    (rebuilt st cosc sinc baseNoise fresh).embs.getD j [] =
      st.embs.getD j [] := by
  rw [rebuilt_eq st cosc sinc baseNoise fresh hf]
  exact triple_getD_lt _ _ _ _ _ _ hj

lemma rebuilt_embs_getD_at (st : InterpState) (cosc sinc : ℚ)
    (baseNoise : List Pix) (fresh : Pix) (hf : 2 ≤ st.samples.length) :
    (rebuilt st cosc sinc baseNoise fresh).embs.getD (insertPos st.samples)
        [] =
      pixAdd
        (pixSmul (1 / 2) (st.embs.getD (insertPos st.samples - 1) []))
        (pixSmul (1 / 2) (st.embs.getD (insertPos st.samples) [])) := by
  rw [rebuilt_eq st cosc sinc baseNoise fresh hf]
  exact triple_getD_at _ _ _ _ _

lemma rebuilt_noises_getD_at (st : InterpState) (cosc sinc : ℚ)
    (baseNoise : List Pix) (fresh : Pix) (hf : 2 ≤ st.samples.length) :
    (rebuilt st cosc sinc baseNoise fresh).noises.getD (insertPos st.samples)
        [] =
      pixAdd (pixSmul cosc (baseNoise.getD 0 [])) (pixSmul sinc fresh) := by
  rw [rebuilt_eq st cosc sinc baseNoise fresh hf]
  exact triple_getD_at _ _ _ _ _

lemma rebuilt_embs_getD_gt (st : InterpState) (cosc sinc : ℚ)
    (baseNoise : List Pix) (fresh : Pix) (hf : 2 ≤ st.samples.length) (j : ℕ)
    (hj : insertPos st.samples < j) (hjf : j ≤ st.samples.length) :
    (rebuilt st cosc sinc baseNoise fresh).embs.getD j [] =
      st.embs.getD (j - 1) [] := by
  have hpf : insertPos st.samples ≤ st.samples.length - 1 :=
    insertPos_le _ hf
  rw [rebuilt_eq st cosc sinc baseNoise fresh hf]
  rw [triple_getD_gt _ _ _ _ _ _ _ hj (by omega)]
  exact congrArg (fun m => st.embs.getD m []) (by omega)

lemma rebuilt_embs_length (st : InterpState) (cosc sinc : ℚ)
    (baseNoise : List Pix) (fresh : Pix) (hf : 2 ≤ st.samples.length) :
    (rebuilt st cosc sinc baseNoise fresh).embs.length =
      st.samples.length + 1 := by
  have hpf : insertPos st.samples ≤ st.samples.length - 1 :=
    insertPos_le _ hf
  rw [rebuilt_eq st cosc sinc baseNoise fresh hf]
  simp only [List.length_append, List.length_map, List.length_range,
    List.length_singleton]
  omega

lemma rebuilt_noises_length (st : InterpState) (cosc sinc : ℚ)
    (baseNoise : List Pix) (fresh : Pix) (hf : 2 ≤ st.samples.length) :
    (rebuilt st cosc sinc baseNoise fresh).noises.length =
      st.samples.length + 1 := by
  have hpf : insertPos st.samples ≤ st.samples.length - 1 :=
    insertPos_le _ hf
  rw [rebuilt_eq st cosc sinc baseNoise fresh hf]
  simp only [List.length_append, List.length_map, List.length_range,
    List.length_singleton]
  omega

lemma rebuilt_prompts_length (st : InterpState) (cosc sinc : ℚ)
    (baseNoise : List Pix) (fresh : Pix) (hf : 2 ≤ st.samples.length) :
    (rebuilt st cosc sinc baseNoise fresh).prompts.length =
      st.samples.length + 1 := by
  have hpf : insertPos st.samples ≤ st.samples.length - 1 :=
    insertPos_le _ hf
  rw [rebuilt_eq st cosc sinc baseNoise fresh hf]
  simp only [List.length_append, List.length_map, List.length_range,
    List.length_singleton]
  omega

section InterpLemmas

variable (sampler : List String → ℕ → List Pix → List Emb → List ℕ →
  List ℕ → List Pix)
variable (cosc sinc : ℚ) (baseNoise : List Pix)
variable (hS : ∀ ps n xs es ii fi, (sampler ps n xs es ii fi).length = n)

include hS in
lemma interpIter_samples_length (fresh : Pix) (st : InterpState) :
    (interpIter sampler cosc sinc baseNoise fresh st).samples.length =
      st.samples.length + 1 := by
  simp only [interpIter]
  exact hS _ _ _ _ _ _

include hS in
lemma interpIter_wf (fresh : Pix) (st : InterpState) (hwf : InterpWF st) :
    InterpWF (interpIter sampler cosc sinc baseNoise fresh st) := by
  obtain ⟨h2, _, _, _⟩ := hwf
  refine ⟨?_, ?_, ?_, ?_⟩
  · rw [interpIter_samples_length sampler cosc sinc baseNoise hS]
    omega
  · rw [interpIter_samples_length sampler cosc sinc baseNoise hS]
    simp only [interpIter]
    exact rebuilt_noises_length st cosc sinc baseNoise fresh h2
  · rw [interpIter_samples_length sampler cosc sinc baseNoise hS]
    simp only [interpIter]
    exact rebuilt_embs_length st cosc sinc baseNoise fresh h2
  · rw [interpIter_samples_length sampler cosc sinc baseNoise hS]
    simp only [interpIter]
    exact rebuilt_prompts_length st cosc sinc baseNoise fresh h2

lemma interpIter_embs_kept (fresh : Pix) (st : InterpState)
    (hf : 2 ≤ st.samples.length) (j : ℕ) (hj : j < st.samples.length) :
    (interpIter sampler cosc sinc baseNoise fresh st).embs.getD
        (shiftIdx (insertPos st.samples) j) [] =
      st.embs.getD j [] := by
  simp only [interpIter, shiftIdx]
  by_cases hjp : j < insertPos st.samples
  · rw [if_pos hjp]
    exact rebuilt_embs_getD_lt st cosc sinc baseNoise fresh hf j hjp
  · rw [if_neg hjp]
    have h := rebuilt_embs_getD_gt st cosc sinc baseNoise fresh hf (j + 1)
      (by omega) (by omega)
    simpa using h

lemma shiftIdx_strictMono (p : ℕ) : StrictMono (shiftIdx p) := by
  intro a b hab
  unfold shiftIdx
  split_ifs <;> omega

include hS in
lemma interpolateK_wf (freshSeq : ℕ → Pix) (k : ℕ) (st : InterpState)
    (hwf : InterpWF st) :
    InterpWF (interpolateK sampler cosc sinc baseNoise freshSeq k st) := by
  induction k generalizing st with
  | zero => exact hwf
  | succ k ih =>
      exact ih _ (interpIter_wf sampler cosc sinc baseNoise hS
        (freshSeq k) st hwf)

include hS in
lemma interpolateK_samples_length (freshSeq : ℕ → Pix) (k : ℕ)
    (st : InterpState) :
    (interpolateK sampler cosc sinc baseNoise freshSeq k st).samples.length =
      st.samples.length + k := by
  induction k generalizing st with
  | zero => rfl
  | succ k ih =>
      rw [interpolateK, ih _,
        interpIter_samples_length sampler cosc sinc baseNoise hS]
      omega

lemma keptMap_strictMono (freshSeq : ℕ → Pix) (k : ℕ) (st : InterpState) :
    StrictMono (keptMap sampler cosc sinc baseNoise freshSeq k st) := by
  induction k generalizing st with
  | zero => exact fun a b hab => hab
  | succ k ih =>
      intro a b hab
      exact ih _ (shiftIdx_strictMono (insertPos st.samples) hab)

include hS in
lemma keptMap_lt (freshSeq : ℕ → Pix) (k : ℕ) (st : InterpState) (j : ℕ)
    (hj : j < st.samples.length) :
    keptMap sampler cosc sinc baseNoise freshSeq k st j <
      (interpolateK sampler cosc sinc baseNoise freshSeq k st).samples.length
    := by
  induction k generalizing st j with
  | zero => exact hj
  | succ k ih =>
      refine ih _ _ ?_
      rw [interpIter_samples_length sampler cosc sinc baseNoise hS]
      unfold shiftIdx
      split_ifs <;> omega

include hS in
lemma keptMap_embs (freshSeq : ℕ → Pix) (k : ℕ) (st : InterpState) (j : ℕ)
    (hwf : InterpWF st) (hj : j < st.samples.length) :
    (interpolateK sampler cosc sinc baseNoise freshSeq k st).embs.getD
        (keptMap sampler cosc sinc baseNoise freshSeq k st j) [] =
      st.embs.getD j [] := by
  induction k generalizing st j with
  | zero => rfl
  | succ k ih =>
      have hstep := interpIter_embs_kept sampler cosc sinc baseNoise
        (freshSeq k) st hwf.1 j hj
      rw [interpolateK, keptMap, ih _ _
        (interpIter_wf sampler cosc sinc baseNoise hS (freshSeq k) st hwf) ?_]
      · exact hstep
      · rw [interpIter_samples_length sampler cosc sinc baseNoise hS]
        unfold shiftIdx
        split_ifs <;> omega

end InterpLemmas

/-! Claim theorems. -/

/-- C1: for every denoising step with guidance_scale strictly greater than 1
the sampler duplicates the latent batch before the network call, splits the
returned estimate into an unconditional first half and a conditional second
half, and feeds uncond + guidance_scale * (cond - uncond) to the scheduler
step; with guidance_scale at most 1 the latents are passed unduplicated and
the network output is consumed unmodified. -/
theorem guidance_batch_duplication
    (unet : Tensor → ℤ → EmbT → Tensor)
    (scaleModelInput : Tensor → ℤ → Tensor)
    (schedStep : Tensor → ℤ → Tensor → Tensor) (g : ℚ) (emb : EmbT) (t : ℤ)
    (lat : Tensor) :
    (1 < g →
      latentsAfterScheduler unet scaleModelInput schedStep g emb t lat =
        schedStep
          (tensorCombine g
            (tensorChunk2 (unet (scaleModelInput (lat ++ lat) t) t emb)).1
            (tensorChunk2 (unet (scaleModelInput (lat ++ lat) t) t emb)).2)
          t lat) ∧
    (g ≤ 1 →
      latentsAfterScheduler unet scaleModelInput schedStep g emb t lat =
        schedStep (unet (scaleModelInput lat t) t emb) t lat) := by
  constructor
  · intro h
    have hc : doClassifierFreeGuidance g := h
    simp only [latentsAfterScheduler, noisePredFinal, latentModelInput,
      if_pos hc]
  · intro h
    have hc : ¬ doClassifierFreeGuidance g := not_lt.mpr h
    simp only [latentsAfterScheduler, noisePredFinal, latentModelInput,
      if_neg hc]

/-- Witness for C1 at a concrete guided and a concrete unguided run. -/
theorem guidance_batch_duplication_witness :
    latentsAfterScheduler (fun l _ _ => l) (fun l _ => l) (fun n _ _ => n) 2
        [] 0 [[[1]]] = [[[1]]] ∧
      latentsAfterScheduler (fun l _ _ => l) (fun l _ => l) (fun n _ _ => n) 1
        [] 0 [[[5]]] = [[[5]]] := by
  constructor
  · rw [(guidance_batch_duplication (fun l _ _ => l) (fun l _ => l)
      (fun n _ _ => n) 2 [] 0 [[[1]]]).1 (by norm_num)]
    norm_num [tensorCombine, sampleCombine, pixCombine, tensorChunk2]
  · rw [(guidance_batch_duplication (fun l _ _ => l) (fun l _ => l)
      (fun n _ _ => n) 1 [] 0 [[[5]]]).2 (by norm_num)]

/-- C8: for a run with guidance_scale equal to 1, classifier-free guidance is
disabled, so the noise estimate consumed by the scheduler step is exactly the
conditional-only estimate (the network evaluated on the unduplicated scaled
latents with the conditional embeddings); moreover the guidance combination
at scale 1 is the identity on the conditional estimate, so scale 1 is
equivalent to no guidance. -/
theorem guidance_scale_one_cond_only
    (unet : Tensor → ℤ → EmbT → Tensor)
    (scaleModelInput : Tensor → ℤ → Tensor) (g : ℚ) (uncond cond : EmbT)
    (t : ℤ) (lat : Tensor) (h : g = 1) :
    pipelineNoiseEstimate unet scaleModelInput g uncond cond t lat =
      condOnlyEstimate unet scaleModelInput cond t lat ∧
    ∀ u c : Pix, u.length = c.length → pixCombine 1 u c = c := by
  subst h
  refine ⟨?_, fun u c hlen => pixCombine_one u c hlen⟩
  have hc : ¬ doClassifierFreeGuidance (1 : ℚ) := by
    rw [doCFG_iff]; exact lt_irrefl 1
  simp only [pipelineNoiseEstimate, noisePredFinal, latentModelInput,
    textEmbeddingsUsed, condOnlyEstimate, if_neg hc]

/-- Witness for C8 at a concrete run with guidance_scale 1. -/
theorem guidance_scale_one_cond_only_witness :
    pipelineNoiseEstimate (fun l _ _ => l) (fun l _ => l) 1 [[2]] [[3]] 0
        [[[7]]] =
      condOnlyEstimate (fun l _ _ => l) (fun l _ => l) [[3]] 0 [[[7]]] ∧
    pixCombine 1 [4] [9] = [9] := by
  have h := guidance_scale_one_cond_only (fun l _ _ => l) (fun l _ => l) 1
    [[2]] [[3]] 0 [[[7]]] rfl
  exact ⟨h.1, h.2 [4] [9] rfl⟩

/-- C9 counterexample: in a run with 2 timesteps, scheduler order 1 and
callback_steps 2, the callback does not fire on the final denoising step
(index 1), refuting that the callback always fires on the final step. -/
theorem callback_final_step_counterexample :
    callbackInvoked 2 (numWarmupSteps 2 2 1) 1 2 1 = false := by decide

/-- C9 amended: the callback fires at step i exactly when the adaptive
progress condition of the scheduler order and warm-up count holds and i is a
multiple of callback_steps; in particular it fires on the final step whenever
the final step index is a multiple of callback_steps (always so under the
default callback_steps = 1). -/
theorem callback_adaptive_cadence (lenT : ℕ) (warm : ℤ) (ord cb i : ℕ) :
    (callbackInvoked lenT warm ord cb i = true ↔
      ((i = lenT - 1 ∨ ((i : ℤ) + 1 > warm ∧ (i + 1) % ord = 0)) ∧
        i % cb = 0)) ∧
    ((lenT - 1) % cb = 0 →
      callbackInvoked lenT warm ord cb (lenT - 1) = true) := by
  constructor
  · simp [callbackInvoked]
  · intro h
    simp [callbackInvoked, h]

/-- Witness for C9 amended at the default callback_steps 1. -/
theorem callback_adaptive_cadence_witness :
    callbackInvoked 3 0 1 1 2 = true := by
  exact (callback_adaptive_cadence 3 0 1 1 2).2 (by decide)

/-- C10: prepare_latents multiplies explicitly supplied latents of the
expected shape by the scheduler's init_noise_sigma constant, the same scaling
applied to freshly drawn noise, so sampling does not start from the supplied
values verbatim. -/
theorem prepare_latents_scaling (sigma : ℚ)
    (bs nc vl h w vsf : ℕ) (genC : Option ℕ) (l fresh : Tensor)
    (hshape : tensorShape l = (bs, vl, nc * (h / vsf) * (w / vsf)))
    (hgen : ∀ gc, genC = some gc → gc = bs) :
    prepare_latents sigma bs nc vl h w vsf genC (some l) fresh =
      .ok (tensorSmul sigma l) ∧
    prepare_latents sigma bs nc vl h w vsf genC none fresh =
      .ok (tensorSmul sigma fresh) := by
  have hany : genC.any (fun g => g != bs) = false := by
    cases genC with
    | none => rfl
    | some gc => simp [Option.any, hgen gc rfl]
  constructor
  · simp [prepare_latents, hany, hshape]
  · simp [prepare_latents, hany]

/-- Witness for C10 at a concrete supplied latent tensor of the expected
shape. -/
theorem prepare_latents_scaling_witness :
    prepare_latents 2 1 1 2 8 8 8 none (some [[[3], [4]]]) [[[5], [6]]] =
        .ok [[[6], [8]]] ∧
      prepare_latents 2 1 1 2 8 8 8 none none [[[5], [6]]] =
        .ok [[[10], [12]]] := by
  have h := prepare_latents_scaling 2 1 1 2 8 8 8 none [[[3], [4]]]
    [[[5], [6]]] (by decide) (fun gc hgc => by cases hgc)
  refine ⟨?_, ?_⟩
  · rw [h.1]; norm_num [tensorSmul, pixSmul]
  · rw [h.2]; norm_num [tensorSmul, pixSmul]

/-- C4 (code evaluated at the failing input): with a frame mask supplied and
video_length 2, the first denoising step aborts with a shape mismatch: the
blended latents keep their full two-frame axis, but the einops repeat
pattern demands a singleton frame axis, so no broadcast of the blended frame
0 across the frame dimension ever happens. -/
theorem mask_repeat_aborts_on_two_frames :
    denoiseIterate (fun l _ _ => l) (fun l _ => l) (fun n _ _ => n)
      (fun l _ => l) 1 [] (some ([1], [1])) none [] none 2 0 0
      [[[0], [1]]] = none := by decide

/-- C3: in a run with a fixed-latent constraint set supplied, a denoising
iteration ends by overwriting the constrained frame indices of the
controller-hook output with the externally supplied constraint values for
the next step, so the state consumed by the next sampling step holds exactly
the supplied frames at every constrained index and the hook-produced frames
at every unconstrained index. -/
theorem fixed_latents_overwrite
    (unet : Tensor → ℤ → EmbT → Tensor)
    (scaleModelInput : Tensor → ℤ → Tensor)
    (schedStep : Tensor → ℤ → Tensor → Tensor)
    (ctrlStep : Tensor → Option (List ℕ) → Tensor) (g : ℚ) (emb : EmbT)
    (fl : ℕ → Tensor) (fixedIdx : List ℕ) (innerIdx : Option (List ℕ))
    (vl i : ℕ) (t : ℤ) (lat : Tensor) (hnodup : fixedIdx.Nodup) :
    denoiseIterate unet scaleModelInput schedStep ctrlStep g emb none
        (some fl) fixedIdx innerIdx vl i t lat =
      some
        (scatterFixedTensor
          (ctrlStep
            (schedStep (noisePredFinal unet scaleModelInput g emb t lat) t
              lat)
            innerIdx)
          fixedIdx (fl (i + 1))) ∧
    (∀ (s : Sample) (vals : List Pix) (k : ℕ), k < fixedIdx.length →
      k < vals.length → fixedIdx.getD k 0 < s.length →
      (scatterFrames s fixedIdx vals).getD (fixedIdx.getD k 0) [] =
        vals.getD k []) ∧
    (∀ (s : Sample) (vals : List Pix) (j : ℕ), j ∉ fixedIdx →
      (scatterFrames s fixedIdx vals).getD j [] = s.getD j []) := by
  refine ⟨rfl, ?_, ?_⟩
  · intro s vals k hk hkv hb
    exact scatterFrames_getD_mem s fixedIdx vals k hnodup hk hkv hb
  · intro s vals j hj
    exact scatterFrames_getD_not_mem s fixedIdx vals j hj

/-- Witness for C3 at a concrete run constraining frames 0 and 2 of a
three-frame latent tensor. -/
theorem fixed_latents_overwrite_witness :
    denoiseIterate (fun l _ _ => l) (fun l _ => l) (fun n _ _ => n)
        (fun l _ => l) 1 [] none (some (fun _ => [[[10], [20]]])) [0, 2] none
        3 0 0 [[[1], [2], [3]]] = some [[[10], [2], [20]]] ∧
      (scatterFrames [[1], [2], [3]] [0, 2] [[10], [20]]).getD 2 [] = [20] ∧
      (scatterFrames [[1], [2], [3]] [0, 2] [[10], [20]]).getD 1 [] = [2] := by
  have h := fixed_latents_overwrite (fun l _ _ => l) (fun l _ => l)
    (fun n _ _ => n) (fun l _ => l) 1 [] (fun _ => [[[10], [20]]]) [0, 2]
    none 3 0 0 [[[1], [2], [3]]] (by decide)
  refine ⟨?_, ?_, ?_⟩
  · rw [h.1]; decide
  · exact h.2.1 [[1], [2], [3]] [[10], [20]] 1 (by decide) (by decide)
      (by decide)
  · exact h.2.2 [[1], [2], [3]] [[10], [20]] 1 (by decide)

lemma check_inputs_error (p : PromptArg) (h w : ℕ) (cb : CallbackStepsArg)
    (lat : Option Tensor)
    (hbad : promptTypeInvalid p = true ∨ h % 8 ≠ 0 ∨ w % 8 ≠ 0 ∨
      callbackStepsInvalid cb = true ∨
      ∃ l t, p = .list l ∧ lat = some t ∧ l.length ≠ tensorFrames t) :
    ∃ e, check_inputs p h w cb lat = .error e := by
  by_cases h1 : promptTypeInvalid p = true
  · exact ⟨"prompt has to be of type str or list", by simp [check_inputs, h1]⟩
  by_cases h2 : h % 8 ≠ 0 ∨ w % 8 ≠ 0
  · exact ⟨"height and width have to be divisible by 8",
      by simp [check_inputs, h1, h2]⟩
  have h1' : promptTypeInvalid p = false := by simpa using h1
  by_cases h3 : callbackStepsInvalid cb = true
  · refine ⟨"callback_steps has to be a positive integer", ?_⟩
    simp [check_inputs, h1', h2, h3]
  · have h3' : callbackStepsInvalid cb = false := by simpa using h3
    rcases hbad with hb | hb | hb | hb | ⟨l, tt, hp, hl, hne⟩
    · exact absurd hb h1
    · exact absurd (Or.inl hb) h2
    · exact absurd (Or.inr hb) h2
    · exact absurd hb h3
    · subst hp; subst hl
      refine ⟨"prompt is list but does not match all frames", ?_⟩
      simp [check_inputs, h1', h2, h3', hne]

/-- C5: for every sampler-loop call whose prompt is neither a string nor a
list, or whose (defaulted) height or width is not divisible by 8, or whose
callback_steps is not a positive integer, or whose prompt list length
differs from the frame axis of explicitly supplied latents, a validation
error is raised with an empty network-call trace: no text encoder, denoising
network or decoder invocation and no denoising step occurs. -/
theorem validation_before_any_network_call
    (unet : Tensor → ℤ → EmbT → Tensor)
    (scaleModelInput : Tensor → ℤ → Tensor)
    (schedStep : Tensor → ℤ → Tensor → Tensor)
    (ctrlStep : Tensor → Option (List ℕ) → Tensor)
    (timestepsOf : ℕ → List ℤ) (uncondEmb condEmb : EmbT)
    (freshNoise : Tensor) (initNoiseSigma : ℚ)
    (numChannelsLatents vaeScaleFactor unetSampleSize : ℕ) (a : CallArgs)
    (hbad : promptTypeInvalid a.prompt = true ∨
      pyOrDefault a.height (unetSampleSize * vaeScaleFactor) % 8 ≠ 0 ∨
      pyOrDefault a.width (unetSampleSize * vaeScaleFactor) % 8 ≠ 0 ∨
      callbackStepsInvalid a.callbackSteps = true ∨
      ∃ l t, a.prompt = .list l ∧ a.latents = some t ∧
        l.length ≠ tensorFrames t) :
    (pipelineCall unet scaleModelInput schedStep ctrlStep timestepsOf
        uncondEmb condEmb freshNoise initNoiseSigma numChannelsLatents
        vaeScaleFactor unetSampleSize a).1 = [] ∧
    ∃ e, (pipelineCall unet scaleModelInput schedStep ctrlStep timestepsOf
        uncondEmb condEmb freshNoise initNoiseSigma numChannelsLatents
        vaeScaleFactor unetSampleSize a).2 = .error e := by
  obtain ⟨e, he⟩ := check_inputs_error a.prompt
    (pyOrDefault a.height (unetSampleSize * vaeScaleFactor))
    (pyOrDefault a.width (unetSampleSize * vaeScaleFactor)) a.callbackSteps
    a.latents hbad
  refine ⟨?_, e, ?_⟩ <;> simp only [pipelineCall, he]

/-- Witness for C5 at the end-to-end scenario with height 513: the
validation error fires with an empty network-call trace. -/
theorem validation_before_any_network_call_witness :
    (pipelineCall (fun l _ _ => l) (fun l _ => l) (fun n _ _ => n)
        (fun l _ => l) (fun _ => []) [] [] [] 1 4 8 64
        { prompt := .str "a dog running", videoLength := 8,
          height := some 513, width := some 512, numInferenceSteps := 20,
          guidanceScale := 15 / 2, callbackSteps := .int 1,
          generatorCount := none, latents := none, initTextEmbedding := none,
          mask := none, fixedLatents := none, fixedLatentsIdx := [],
          innerIdx := none }).1 = [] ∧
    ∃ e, (pipelineCall (fun l _ _ => l) (fun l _ => l) (fun n _ _ => n)
        (fun l _ => l) (fun _ => []) [] [] [] 1 4 8 64
        { prompt := .str "a dog running", videoLength := 8,
          height := some 513, width := some 512, numInferenceSteps := 20,
          guidanceScale := 15 / 2, callbackSteps := .int 1,
          generatorCount := none, latents := none, initTextEmbedding := none,
          mask := none, fixedLatents := none, fixedLatentsIdx := [],
          innerIdx := none }).2 = .error e := by
  exact validation_before_any_network_call (fun l _ _ => l) (fun l _ => l)
    (fun n _ _ => n) (fun l _ => l) (fun _ => []) [] [] [] 1 4 8 64 _
    (Or.inr (Or.inl (by decide)))

/-- C2: with a sampler that returns the requested frame count, the
orchestrator loop runs exactly k iterations and each iteration increases the
frame count by exactly num_insert = 1, so after k iterations the sample
sequence has grown by exactly k frames. -/
theorem interpolation_frame_count
    (sampler : List String → ℕ → List Pix → List Emb → List ℕ → List ℕ →
      List Pix) (cosc sinc : ℚ) (baseNoise : List Pix) (freshSeq : ℕ → Pix)
    (hS : ∀ ps n xs es ii fi, (sampler ps n xs es ii fi).length = n)
    (st : InterpState) (k : ℕ) :
    (interpolateK sampler cosc sinc baseNoise freshSeq k st).samples.length =
      st.samples.length + k ∧
    (∀ (fresh : Pix) (st' : InterpState),
      (interpIter sampler cosc sinc baseNoise fresh st').samples.length =
        st'.samples.length + 1) := by
  exact ⟨interpolateK_samples_length sampler cosc sinc baseNoise hS freshSeq
      k st,
    fun fresh st' =>
      interpIter_samples_length sampler cosc sinc baseNoise hS fresh st'⟩

/-- Witness for C2 at the end-to-end scenario with 4 initial frames and
k = 2 iterations, ending with 6 frames. -/
theorem interpolation_frame_count_witness :
    (interpolateK (fun _ n _ _ _ _ => List.replicate n []) 0 0 [] (fun _ => [])
        2
        { samples := [[0], [1], [2], [10]], xNoise := [[0], [0], [0], [0]],
          embs := [[1], [2], [3], [4]],
          prompts := ["a", "b", "c", "d"] }).samples.length = 6 := by
  have h := (interpolation_frame_count (fun _ n _ _ _ _ => List.replicate n [])
    0 0 [] (fun _ => []) (fun _ n _ _ _ _ => by simp)
    { samples := [[0], [1], [2], [10]], xNoise := [[0], [0], [0], [0]],
      embs := [[1], [2], [3], [4]], prompts := ["a", "b", "c", "d"] } 2).1
  exact h.trans rfl

/-- C6: over any number of orchestrator iterations there is a strictly
monotone re-indexing of the originally kept frames under which the final
state's conditioning embedding at each kept frame's final position equals
that frame's original embedding unchanged; moreover the sampler call itself
carries the supplied conditioning embeddings through unchanged: the slice
assignment overwrites the conditional rows with the supplied embedding and
the returned embedding slice is exactly the supplied embedding. -/
theorem interpolation_kept_embeddings
    (sampler : List String → ℕ → List Pix → List Emb → List ℕ → List ℕ →
      List Pix) (cosc sinc : ℚ) (baseNoise : List Pix) (freshSeq : ℕ → Pix)
    (hS : ∀ ps n xs es ii fi, (sampler ps n xs es ii fi).length = n)
    (st : InterpState) (hwf : InterpWF st) (k : ℕ) :
    StrictMono (keptMap sampler cosc sinc baseNoise freshSeq k st) ∧
    (∀ j, j < st.samples.length →
      keptMap sampler cosc sinc baseNoise freshSeq k st j <
        (interpolateK sampler cosc sinc baseNoise freshSeq k st).embs.length ∧
      (interpolateK sampler cosc sinc baseNoise freshSeq k st).embs.getD
          (keptMap sampler cosc sinc baseNoise freshSeq k st j) [] =
        st.embs.getD j []) ∧
    (∀ (uncond cond init : EmbT) (n : ℕ), uncond.length = n →
      cond.length = init.length →
      sliceAssignTail (uncond ++ cond) n init = .ok (uncond ++ init) ∧
      returnedTextEmbedding (uncond ++ init) n = init) := by
  refine ⟨keptMap_strictMono sampler cosc sinc baseNoise freshSeq k st,
    fun j hj => ⟨?_, keptMap_embs sampler cosc sinc baseNoise hS freshSeq k
      st j hwf hj⟩, ?_⟩
  · have hwfk := interpolateK_wf sampler cosc sinc baseNoise hS freshSeq k st
      hwf
    rw [hwfk.2.2.1]
    exact keptMap_lt sampler cosc sinc baseNoise hS freshSeq k st j hj
  · intro uncond cond init n hn hc
    subst hn
    constructor
    · unfold sliceAssignTail
      rw [if_pos (by simp only [List.length_append]; omega)]
      rw [List.take_left]
    · unfold returnedTextEmbedding
      rw [List.drop_left]

/-- Witness for C6 at a concrete 4-frame state and one iteration. -/
theorem interpolation_kept_embeddings_witness :
    (interpolateK (fun _ n _ _ _ _ => List.replicate n []) 0 0 []
          (fun _ => []) 1
          { samples := [[0], [1], [2], [10]], xNoise := [[0], [0], [0], [0]],
            embs := [[1], [2], [3], [4]],
            prompts := ["a", "b", "c", "d"] }).embs.getD
        (keptMap (fun _ n _ _ _ _ => List.replicate n []) 0 0 []
          (fun _ => []) 1
          { samples := [[0], [1], [2], [10]], xNoise := [[0], [0], [0], [0]],
            embs := [[1], [2], [3], [4]],
            prompts := ["a", "b", "c", "d"] } 1) [] =
      ([[1], [2], [3], [4]] : List Emb).getD 1 [] ∧
    sliceAssignTail ([[5]] ++ [[6]]) 1 [[9]] = .ok ([[5]] ++ [[9]]) := by
  have h := interpolation_kept_embeddings
    (fun _ n _ _ _ _ => List.replicate n []) 0 0 [] (fun _ => [])
    (fun _ n _ _ _ _ => by simp)
    { samples := [[0], [1], [2], [10]], xNoise := [[0], [0], [0], [0]],
      embs := [[1], [2], [3], [4]], prompts := ["a", "b", "c", "d"] }
    (by decide) 1
  exact ⟨(h.2.1 1 (by decide)).2, (h.2.2 [[5]] [[6]] [[9]] 1 rfl rfl).1⟩

/-- C7: in every orchestrator iteration the single inserted position p
receives noise cosc * base_noise_frame0 + sinc * fresh_noise (the evaluated
spherical-style blend), and a conditioning embedding equal to the
position-weighted linear interpolation between the embeddings of the nearest
preceding kept frame (position p - 1, original index p - 1) and the nearest
following kept frame (position p + 1, original index p), with weights
(next - p)/(next - pre) and (p - pre)/(next - pre). -/
theorem interpolation_inserted_frame
    (st : InterpState) (cosc sinc : ℚ) (baseNoise : List Pix) (fresh : Pix)
    (hf : 2 ≤ st.samples.length) :
    (rebuilt st cosc sinc baseNoise fresh).noises.getD
        (insertPos st.samples) [] =
      pixAdd (pixSmul cosc (baseNoise.getD 0 [])) (pixSmul sinc fresh) ∧
    (rebuilt st cosc sinc baseNoise fresh).embs.getD
        (insertPos st.samples) [] =
      pixAdd
        (pixSmul
          ((((insertPos st.samples + 1 : ℕ) : ℚ) -
              ((insertPos st.samples : ℕ) : ℚ)) /
            (((insertPos st.samples + 1 : ℕ) : ℚ) -
              ((insertPos st.samples - 1 : ℕ) : ℚ)))
          (st.embs.getD (insertPos st.samples - 1) []))
        (pixSmul
          ((((insertPos st.samples : ℕ) : ℚ) -
              ((insertPos st.samples - 1 : ℕ) : ℚ)) /
            (((insertPos st.samples + 1 : ℕ) : ℚ) -
              ((insertPos st.samples - 1 : ℕ) : ℚ)))
          (st.embs.getD (insertPos st.samples) [])) ∧
    (insertPos st.samples - 1) ∈
      keptIdx (insertPos st.samples) (st.samples.length + 1) ∧
    (insertPos st.samples + 1) ∈
      keptIdx (insertPos st.samples) (st.samples.length + 1) ∧
    insertPos st.samples ∉
      keptIdx (insertPos st.samples) (st.samples.length + 1) ∧
    (∀ q, insertPos st.samples - 1 < q → q < insertPos st.samples + 1 →
      q ∉ keptIdx (insertPos st.samples) (st.samples.length + 1)) := by
  have hp1 : 1 ≤ insertPos st.samples := insertPos_pos _
  have hpf : insertPos st.samples ≤ st.samples.length - 1 :=
    insertPos_le _ hf
  have hcast : ((insertPos st.samples - 1 : ℕ) : ℚ) =
      ((insertPos st.samples : ℕ) : ℚ) - 1 := by
    rw [Nat.cast_sub hp1]
    norm_num
  have hd : ((insertPos st.samples + 1 : ℕ) : ℚ) -
      ((insertPos st.samples - 1 : ℕ) : ℚ) = 2 := by
    rw [hcast]; push_cast; ring
  have hn1 : ((insertPos st.samples + 1 : ℕ) : ℚ) -
      ((insertPos st.samples : ℕ) : ℚ) = 1 := by push_cast; ring
  have hn2 : ((insertPos st.samples : ℕ) : ℚ) -
      ((insertPos st.samples - 1 : ℕ) : ℚ) = 1 := by rw [hcast]; ring
  refine ⟨rebuilt_noises_getD_at st cosc sinc baseNoise fresh hf, ?_, ?_,
    ?_, ?_, ?_⟩
  · rw [rebuilt_embs_getD_at st cosc sinc baseNoise fresh hf, hd, hn1, hn2]
  · simp only [keptIdx, List.mem_filter, List.mem_range,
      decide_eq_true_eq]
    omega
  · simp only [keptIdx, List.mem_filter, List.mem_range,
      decide_eq_true_eq]
    omega
  · simp only [keptIdx, List.mem_filter, List.mem_range,
      decide_eq_true_eq]
    omega
  · intro q hq1 hq2
    simp only [keptIdx, List.mem_filter, List.mem_range,
      decide_eq_true_eq]
    omega

/-- Witness for C7 at a concrete 4-frame state whose maximal adjacent
dissimilarity selects insertion position 3. -/
theorem interpolation_inserted_frame_witness :
    (rebuilt
        { samples := [[0], [1], [2], [10]], xNoise := [[0], [0], [0], [0]],
          embs := [[1], [2], [3], [4]], prompts := ["a", "b", "c", "d"] }
        3 5 [[7]] [11]).noises.getD
      (insertPos [[0], [1], [2], [10]]) [] =
      pixAdd (pixSmul 3 [7]) (pixSmul 5 [11]) ∧
    (rebuilt
        { samples := [[0], [1], [2], [10]], xNoise := [[0], [0], [0], [0]],
          embs := [[1], [2], [3], [4]], prompts := ["a", "b", "c", "d"] }
        3 5 [[7]] [11]).embs.getD (insertPos [[0], [1], [2], [10]]) [] =
      [7 / 2] := by
  have h := interpolation_inserted_frame
    { samples := [[0], [1], [2], [10]], xNoise := [[0], [0], [0], [0]],
      embs := [[1], [2], [3], [4]], prompts := ["a", "b", "c", "d"] }
    3 5 [[7]] [11] (by decide)
  refine ⟨h.1, ?_⟩
  rw [h.2.1]
  norm_num [insertPos, distList, mseLoss, argmaxFirst, pixAdd, pixSmul]

end FreeBloom
